import Mathlib

/-!
Verification of the overlay compositing engine of the marathon-aws repository
(`src/lambdas/generate_event_reels/reel_generation_handler/`).

The Python source is shallowly embedded here:
* floats that carry times, scales, ratios and opacities become `ℚ`;
* pixel coordinates and sizes become `ℤ`;
* Python's `int(...)` (truncation toward zero) becomes `intTrunc`;
* Python's `//` (floor division) becomes `Int.fdiv`;
* code that can raise (`ValueError` / `TypeError`) returns `Except String _`;
* external libraries (PIL geometry, font metrics, `os.path.exists`,
  `random.uniform`) are abstracted into an `Env` record of oracles; every
  arithmetic decision made by the repository's own code is modelled exactly.
-/

deriving instance DecidableEq for Except

/-- Python `int(q)` on a rational: truncation toward zero. -/
def intTrunc (q : ℚ) : ℤ := if q < 0 then ⌈q⌉ else ⌊q⌋

/-- Python `abs(q)` on a rational. -/
def ratAbs (q : ℚ) : ℚ := if q < 0 then -q else q

/-- A position descriptor as accepted by `get_position` in
`reel_generation.py`: a 2-element list/tuple, a `{x, y}` dict, a keyword
string, or anything else (which raises `TypeError`). -/
inductive Position where
  | coords (x y : ℚ)
  | dict (x y : ℚ)
  | kw (s : String)
  | other
deriving DecidableEq

/-- `_resolve_xy(x, y, vw, vh, ow, oh)` from `reel_generation.py`
(lines 310-329): per axis, `abs(v) <= 1.0` is a ratio of the video
dimension (`int(vw * x)`), anything else is absolute pixels (`int(x)`).
The overlay size `ow`/`oh` is accepted but unused, as in the source. -/
def resolve_xy (x y : ℚ) (vw vh : ℤ) : ℤ × ℤ :=
  let px : ℤ := if ratAbs x ≤ 1 then intTrunc ((vw : ℚ) * x) else intTrunc x
  let py : ℤ := if ratAbs y ≤ 1 then intTrunc ((vh : ℚ) * y) else intTrunc y
  (px, py)

/-- Lower-casing of a Python string (`position.lower()`). -/
def lowerS (s : String) : String := String.mk (s.toList.map Char.toLower)

/-- The compound-keyword table of `get_position` (lines 269-279), mapping a
lower-cased keyword to its (horizontal, vertical) anchor pair. -/
def kwAnchors (p : String) : Option (String × String) :=
  if p = "center" then some ("center", "center")
  else if p = "top" then some ("center", "top")
  else if p = "bottom" then some ("center", "bottom")
  else if p = "left" then some ("left", "center")
  else if p = "right" then some ("right", "center")
  else if p = "top-left" then some ("left", "top")
  else if p = "top-right" then some ("right", "top")
  else if p = "bottom-left" then some ("left", "bottom")
  else if p = "bottom-right" then some ("right", "bottom")
  else none

/-- `get_position(position, video_size, overlay_size)` from
`reel_generation.py` (lines 243-307).  Keyword anchors: `left`/`top` give 0,
`right`/`bottom` give container minus content, `center` gives
`(container - content) // 2` (Python floor division).  Invalid keywords and
unsupported shapes raise, modelled by `Except.error`. -/
def get_position (position : Position) (video_size overlay_size : ℤ × ℤ) :
    Except String (ℤ × ℤ) :=
  let vw := video_size.1; let vh := video_size.2
  let ow := overlay_size.1; let oh := overlay_size.2
  match position with
  | .coords x y => .ok (resolve_xy x y vw vh)
  | .dict x y => .ok (resolve_xy x y vw vh)
  | .kw s =>
    let p := lowerS s
    match kwAnchors p with
    | none => .error ("Invalid position " ++ s)
    | some (hx, vy) =>
      let x : ℤ := if hx = "left" then 0
        else if hx = "right" then vw - ow
        else Int.fdiv (vw - ow) 2
      let y : ℤ := if vy = "top" then 0
        else if vy = "bottom" then vh - oh
        else Int.fdiv (vh - oh) 2
      .ok (x, y)
  | .other => .error "Unsupported position format"

/-- A color value as accepted by `_parse_hex_color`: `None` is modelled by
`Option.none` at the call sites; here a 3- or 4-tuple of channels, or a
string. -/
inductive ColorVal where
  | rgb (r g b : ℤ)
  | rgba (r g b a : ℤ)
  | str (s : String)
deriving DecidableEq

/-- Hex digit value, as accepted by Python's `int(s, 16)`. -/
def hexDigit (c : Char) : Option ℕ :=
  if '0' ≤ c ∧ c ≤ '9' then some (c.toNat - '0'.toNat)
  else if 'a' ≤ c ∧ c ≤ 'f' then some (c.toNat - 'a'.toNat + 10)
  else if 'A' ≤ c ∧ c ≤ 'F' then some (c.toNat - 'A'.toNat + 10)
  else none

/-- Python whitespace, as stripped by `str.strip()`. -/
def pySpace (c : Char) : Bool :=
  c = ' ' ∨ c = '\t' ∨ c = '\n' ∨ c = '\r' ∨ c = Char.ofNat 11 ∨ c = Char.ofNat 12

/-- Python `str.strip()` on a character list: drop leading and trailing
whitespace. -/
def stripChars (cs : List Char) : List Char :=
  ((cs.dropWhile pySpace).reverse.dropWhile pySpace).reverse

/-- `int(s, 16)` on a two-character slice, as used by `_parse_hex_color`. -/
def hexByte (c1 c2 : Char) : Option ℤ :=
  match hexDigit c1, hexDigit c2 with
  | some a, some b => some ((a * 16 + b : ℕ) : ℤ)
  | _, _ => none

/-- `_parse_hex_color(color)` from `reel_generation.py` (lines 8-22):
`None` passes through as `None`; tuples/lists of length 3 or 4 are returned
as tuples; a string is stripped, an optional leading `#` removed, and then
6-digit (`RRGGBB`, alpha forced to 255) or 8-digit (`RRGGBBAA`) hex is
parsed; anything else raises `ValueError`, as does a non-hex digit inside
`int(_, 16)`.  The parsed channel list has length 3 or 4 exactly as the
Python tuple does. -/
def parse_hex_color (color : Option ColorVal) : Except String (Option (List ℤ)) :=
  match color with
  | none => .ok none
  | some (.rgb r g b) => .ok (some [r, g, b])
  | some (.rgba r g b a) => .ok (some [r, g, b, a])
  | some (.str s) =>
    let cs := stripChars s.toList
    let cs := match cs with
      | sharp :: rest => if sharp = '#' then rest else cs
      | [] => cs
    match cs with
    | [a, b, c, d, e, f] =>
      match hexByte a b, hexByte c d, hexByte e f with
      | some r, some g, some bl => .ok (some [r, g, bl, 255])
      | _, _, _ => .error ("invalid hex literal in color " ++ s)
    | [a, b, c, d, e, f, g, h] =>
      match hexByte a b, hexByte c d, hexByte e f, hexByte g h with
      | some r, some gr, some bl, some al => .ok (some [r, gr, bl, al])
      | _, _, _, _ => .error ("invalid hex literal in color " ++ s)
    | _ => .error ("Unsupported color format " ++ s)

/-- One step of the `transform_image` pipeline (`reel_generation.py`
lines 209-240), recorded with the exact parameters the source passes to the
imaging library: `resize` with the uniform factor, `rotate` with the negated
angle, `expand=True` and transparent `fillcolor`, and alpha scaling by the
opacity. -/
inductive ImgOp where
  | resize (scale : ℚ)
  | rotate (angle : ℚ) (expand : Bool) (fill : ℤ × ℤ × ℤ × ℤ)
  | alphaScale (opacity : ℚ)
deriving DecidableEq

/-- The sequence of operations `transform_image(image_path, scale, rotation,
opacity)` applies to the loaded RGBA image, in source order: scaling only
when `scale != 1.0`, then rotation by `-rotation` with canvas expansion and
transparent fill only when `rotation != 0`, then alpha scaling only when
`opacity < 1.0`. -/
def transform_image_ops (scale rot opacity : ℚ) : List ImgOp :=
  let ops : List ImgOp := []
  let ops := if scale ≠ 1 then ops ++ [.resize scale] else ops
  let ops := if rot ≠ 0 then ops ++ [.rotate (-rot) true (0, 0, 0, 0)] else ops
  let ops := if opacity < 1 then ops ++ [.alphaScale opacity] else ops
  ops

/-- The per-pixel alpha map of the opacity stage:
`alpha.point(lambda p: int(p * opacity))`. -/
def pointAlpha (opacity : ℚ) (p : ℕ) : ℕ := (intTrunc ((p : ℚ) * opacity)).toNat

/-- The opacity stage applied to a whole alpha channel (a row-major grid of
alpha values), `img.putalpha(alpha.point(...))`. -/
def applyOpacityAlpha (opacity : ℚ) (alphas : List (List ℕ)) : List (List ℕ) :=
  alphas.map (List.map (pointAlpha opacity))

/-- Target-dimension resolution inside `overlay_images_on_video`:
`int(video_dim * v) if v <= 1.0 else int(v)` (note: plain `<=`, not by
absolute value, exactly as in the source at lines 592/597 and 726/731). -/
def target_dim (container : ℤ) (v : Option ℚ) : Option ℤ :=
  v.map (fun w => if w ≤ 1 then intTrunc ((container : ℚ) * w) else intTrunc w)

/-- `fit_mode == "contain"` sizing from `overlay_images_on_video`
(lines 608-628): when both targets are given the scale factor is the `min`
of the per-axis factors and both new dimensions are truncated; with a single
target that axis is exact and the other is scaled proportionally. -/
def fitContain (cw ch : ℤ) : Option ℤ → Option ℤ → ℤ × ℤ
  | some tw, some th =>
    let width_scale : ℚ := (tw : ℚ) / (cw : ℚ)
    let height_scale : ℚ := (th : ℚ) / (ch : ℚ)
    let scale_factor := min width_scale height_scale
    (intTrunc ((cw : ℚ) * scale_factor), intTrunc ((ch : ℚ) * scale_factor))
  | some tw, none => (tw, intTrunc ((ch : ℚ) * ((tw : ℚ) / (cw : ℚ))))
  | none, some th => (intTrunc ((cw : ℚ) * ((th : ℚ) / (ch : ℚ))), th)
  | none, none => (cw, ch)

/-- Result of the `fit_mode == "cover"` branch (lines 630-659): the resized
dimensions, the center-crop box (`left, top, right, bottom`) when both
targets are given, and the final size after `Image.crop` (whose output is
always exactly `right-left` by `bottom-top`). -/
structure CoverResult where
  resized : ℤ × ℤ
  cropBox : Option (ℤ × ℤ × ℤ × ℤ)
  final : ℤ × ℤ
deriving DecidableEq

/-- `fit_mode == "cover"` sizing: scale by the `max` of the per-axis factors
and center-crop to the target box; the single-target branches are literally
"same as contain" in the source. -/
def fitCover (cw ch : ℤ) : Option ℤ → Option ℤ → CoverResult
  | some tw, some th =>
    let width_scale : ℚ := (tw : ℚ) / (cw : ℚ)
    let height_scale : ℚ := (th : ℚ) / (ch : ℚ)
    let scale_factor := max width_scale height_scale
    let new_width := intTrunc ((cw : ℚ) * scale_factor)
    let new_height := intTrunc ((ch : ℚ) * scale_factor)
    let left := Int.fdiv (new_width - tw) 2
    let top := Int.fdiv (new_height - th) 2
    let right := left + tw
    let bottom := top + th
    ⟨(new_width, new_height), some (left, top, right, bottom),
      (right - left, bottom - top)⟩
  | tw?, th? =>
    let sz := fitContain cw ch tw? th?
    ⟨sz, none, sz⟩

/-- `fit_mode` dispatch on an image of current size `(cw, ch)` inside the
`image_stack` branch (lines 601-677): `stretch` forces the exact targets,
`contain`/`cover` as above, and an unknown mode warns and falls back to the
`contain` computation (duplicated verbatim in the source's `else`). -/
def stackFit (cw ch : ℤ) (tw? th? : Option ℤ) (fit_mode : String) : ℤ × ℤ :=
  if fit_mode = "stretch" then (tw?.getD cw, th?.getD ch)
  else if fit_mode = "contain" then fitContain cw ch tw? th?
  else if fit_mode = "cover" then (fitCover cw ch tw? th?).final
  else fitContain cw ch tw? th?

/-- Python `str.split(sep)` for a single-character separator, keeping empty
pieces; `split` of the empty string gives `[""]`. -/
def splitOnChar (sep : Char) : List Char → List (List Char)
  | [] => [[]]
  | c :: rest =>
    let r := splitOnChar sep rest
    if c = sep then [] :: r
    else
      match r with
      | [] => [[c]]
      | l :: ls => (c :: l) :: ls

/-- Python `sep.join(pieces)` for a single-character separator. -/
def joinChar (sep : Char) : List (List Char) → List Char
  | [] => []
  | [l] => l
  | l :: ls => l ++ sep :: joinChar sep ls

/-- Python truthiness of `max_width_px`: `None` and `0` are falsy. -/
def maxTruthy : Option ℤ → Bool
  | none => false
  | some m => m != 0

/-- The greedy word-packing loop of `_wrap_text` (lines 57-69): words are
appended to the current line; when a maximum width is set (Python truthiness:
`None` and `0` are falsy), the joined-and-stripped test line measures wider
than the limit, and the current line is non-empty, the current line is
flushed and the word starts a new line; the final partial line is flushed if
non-empty. -/
def wrapLoop (measureW : List Char → ℤ) (maxW : Option ℤ) :
    List (List Char) → List (List Char) → List (List Char)
  | [], current => if current ≠ [] then [joinChar ' ' current] else []
  | w :: ws, current =>
    let test := stripChars (joinChar ' ' (current ++ [w]))
    let w_px := measureW test
    if maxTruthy maxW ∧ maxW.getD 0 < w_px ∧ current ≠ [] then
      joinChar ' ' current :: wrapLoop measureW maxW ws [w]
    else
      wrapLoop measureW maxW ws (current ++ [w])

/-- `_wrap_text(draw, text, font, max_width_px)` from `reel_generation.py`
(lines 49-70): manual newlines are preserved, a paragraph that strips to
nothing contributes one empty line, and other paragraphs are greedily packed
by `wrapLoop`.  The font-dependent `draw.textbbox` width is the `measureW`
oracle. -/
def wrap_text (measureW : List Char → ℤ) (text : List Char) (maxW : Option ℤ) :
    List (List Char) :=
  (splitOnChar '\n' text).flatMap (fun paragraph =>
    if stripChars paragraph = [] then [[]]
    else wrapLoop measureW maxW (splitOnChar ' ' paragraph) [])

/-- The background fill selected by `make_text_rgba_image` (lines 147-157):
either a gradient between two parsed RGBA stops or a solid RGBA color
(transparent black when no background is requested). -/
inductive BgFill where
  | solid (c : List ℤ)
  | gradient (startC endC : List ℤ) (direction : String)
deriving DecidableEq

/-- The `bg_gradient` dict: `.get` defaults are `#000000FF`, `#00000000` and
`"vertical"` (lines 151-153). -/
structure GradientCfg where
  startC : Option ColorVal := some (.str "#000000FF")
  endC : Option ColorVal := some (.str "#00000000")
  direction : String := "vertical"
deriving DecidableEq

/-- The `text_style` object consumed by the text overlay branch
(lines 767-789), with the source's defaults. -/
structure TextStyle where
  font : String := "DejaVuSans.ttf"
  font_size : ℤ := 48
  color : Option ColorVal := some (.str "#FFFFFF")
  stroke_color : Option ColorVal := some (.str "#000000")
  stroke_width : ℤ := 0
  bg_color : Option ColorVal := none
  bg_gradient : Option GradientCfg := none
  padding : ℤ := 10
  align : String := "center"
  line_spacing : ℤ := 6
  char_animation : Bool := false
  char_fade_duration : ℚ := 3 / 20
  char_delay : ℚ := 1 / 20
  max_width : Option ℚ := none

/-- The observable geometry of the image produced by
`make_text_rgba_image`: canvas width/height, background fill, and the list
of wrapped lines that get drawn on it. -/
structure TextImg where
  w : ℤ
  h : ℤ
  bg : BgFill
  drawn : List (List Char)
deriving DecidableEq

/-- `make_text_rgba_image` from `reel_generation.py` (lines 112-195),
embedded at the level of canvas geometry and fills.  `lineM` is the
`draw.textbbox(..., stroke_width=...)` oracle giving each line's measured
(width, height).  Canvas: width `max(1, text_w + 2*padding)`, height
`max(1, text_h + 2*padding)` where `text_w` is the maximum line width (0
when there are no lines) and `text_h` is the sum of line heights plus
`line_spacing` between lines.  Gradient backgrounds take priority over
`bg_color`; color parsing and a bad gradient direction raise. -/
def make_text_rgba_sz (wrapM : List Char → ℤ) (lineM : ℤ → List Char → ℤ × ℤ)
    (text : List Char) (maxW : Option ℤ) (st : TextStyle) :
    Except String TextImg :=
  let lines := wrap_text wrapM text maxW
  let line_boxes := lines.map (lineM st.stroke_width)
  let line_widths := line_boxes.map Prod.fst
  let line_heights := line_boxes.map Prod.snd
  let text_w := match line_widths with
    | [] => 0
    | x :: xs => xs.foldl max x
  let text_h := line_heights.sum + ((lines.length - 1 : ℕ) : ℤ) * st.line_spacing
  let pad := st.padding
  let img_w := max 1 (text_w + 2 * pad)
  let img_h := max 1 (text_h + 2 * pad)
  let bgE : Except String BgFill :=
    match st.bg_gradient with
    | some g =>
      match parse_hex_color g.startC, parse_hex_color g.endC with
      | .ok (some sc), .ok (some ec) =>
        if g.direction = "vertical" ∨ g.direction = "horizontal" then
          .ok (BgFill.gradient sc ec g.direction)
        else .error ("Invalid gradient direction: " ++ g.direction)
      | .ok none, _ => .error "gradient start color is None"
      | _, .ok none => .error "gradient end color is None"
      | .error e, _ => .error e
      | _, .error e => .error e
    | none =>
      match st.bg_color with
      | some c =>
        match parse_hex_color (some c) with
        | .ok bc => .ok (BgFill.solid (bc.getD [0, 0, 0, 0]))
        | .error e => .error e
      | none => .ok (BgFill.solid [0, 0, 0, 0])
  match bgE with
  | .error e => .error e
  | .ok bg =>
    match parse_hex_color st.color, parse_hex_color st.stroke_color with
    | .error e, _ => .error e
    | _, .error e => .error e
    | .ok _, .ok _ => .ok { w := img_w, h := img_h, bg := bg, drawn := lines }

/-- The external-library oracles of the compositor: filesystem existence,
PIL image sizes, PIL rotated-canvas sizes, `random.uniform` draws, and the
two font-measurement calls. -/
structure Env where
  pathExists : String → Bool
  imageSize : String → ℤ × ℤ
  rotSize : ℤ × ℤ → ℚ → ℤ × ℤ
  randRot : ℕ → ℚ
  wrapM : List Char → ℤ
  lineM : ℤ → List Char → ℤ × ℤ

/-- One entry of the `overlays` list consumed by `overlay_images_on_video`,
with the `.get(...)` defaults of the source. -/
structure OverlayCfg where
  type : String := "image"
  start_time : ℚ := 0
  duration : ℚ := 0
  image_paths : List String := []
  rotation_range : ℚ := 10
  image_path : Option String := none
  text : Option String := none
  text_position : Option Position := none
  position : Position := .kw "center"
  width : Option ℚ := none
  height : Option ℚ := none
  bg_color : Option ColorVal := none
  opacity : ℚ := 1
  scale : ℚ := 1
  fit_mode : String := "contain"
  rotation : ℚ := 0
  style : TextStyle := {}

/-- One time-boxed visual layer appended to `overlay_clips`: its start time,
duration, resolved position, and pixel size. -/
structure Layer where
  start : ℚ
  duration : ℚ
  pos : ℤ × ℤ
  size : ℤ × ℤ
deriving DecidableEq

/-- Pixel size of `transform_image(path, scale, rotation, ...)`: the loaded
size, scaled by `int(w*scale), int(h*scale)` when `scale != 1.0`, then
changed by the expanding rotation when `rotation != 0` (opacity does not
affect size). -/
def transformSize (env : Env) (p : String) (scale rot : ℚ) : ℤ × ℤ :=
  let wh := env.imageSize p
  let wh := if scale ≠ 1 then
      (intTrunc ((wh.1 : ℚ) * scale), intTrunc ((wh.2 : ℚ) * scale))
    else wh
  if rot ≠ 0 then env.rotSize wh rot else wh

/-- The per-image size pipeline of the `image_stack` branch (lines 569-696):
the image is scaled (`transform_image` is called with `rotation=0`), fitted
when a width/height override is present, matted with a 20-pixel border when
`bg_color` is given (the color parse can raise), and finally rotated by the
random draw for its index. -/
def stackImageSize (env : Env) (vs : ℤ × ℤ) (cfg : OverlayCfg) (p : String)
    (idx : ℕ) : Except String (ℤ × ℤ) :=
  let rot := env.randRot idx
  let sz := transformSize env p cfg.scale 0
  let sz := if cfg.width ≠ none ∨ cfg.height ≠ none then
      stackFit sz.1 sz.2 (target_dim vs.1 cfg.width) (target_dim vs.2 cfg.height)
        cfg.fit_mode
    else sz
  match cfg.bg_color with
  | none => .ok (if rot ≠ 0 then env.rotSize sz rot else sz)
  | some c =>
    match parse_hex_color (some c) with
    | .ok _ =>
      let sz := (sz.1 + 40, sz.2 + 40)
      .ok (if rot ≠ 0 then env.rotSize sz rot else sz)
    | .error e => .error e

/-- The per-image body of the `image_stack` loop, split into the size
computation (`stackImageSize`, which can raise from the mat color parse)
and the timing/positioning done here. -/
def stackLayers (env : Env) (vs : ℤ × ℤ) (cfg : OverlayCfg) (s ti d : ℚ) :
    List String → ℕ → Except String (List Layer)
  | [], _ => .ok []
  | p :: rest, idx =>
    if env.pathExists p = false then stackLayers env vs cfg s ti d rest (idx + 1)
    else
      let img_start := s + (idx : ℚ) * ti
      let img_dur := d - (idx : ℚ) * ti
      match stackImageSize env vs cfg p idx with
      | .error e => .error e
      | .ok sz =>
        match get_position cfg.position vs sz with
        | .error e => .error e
        | .ok pos =>
          match stackLayers env vs cfg s ti d rest (idx + 1) with
          | .error e => .error e
          | .ok ls =>
            .ok ({ start := img_start, duration := img_dur, pos := pos, size := sz } :: ls)

/-- The plain image branch (lines 706-758): skipped when the file is
missing; otherwise scale/rotate via `transform_image`, apply the stretch
width/height override (this branch has no fit modes), optionally replace the
layer by a full-screen background with the image pasted centered — which
forces the position to the tuple `(0, 0)` — and resolve the position. -/
def imageBranch (env : Env) (vs : ℤ × ℤ) (cfg : OverlayCfg) :
    Except String (List Layer) :=
  match cfg.image_path with
  | none => .ok []
  | some p =>
    if env.pathExists p = false then .ok []
    else
      let sz := transformSize env p cfg.scale cfg.rotation
      let sz := if cfg.width ≠ none ∨ cfg.height ≠ none then
          ((target_dim vs.1 cfg.width).getD sz.1, (target_dim vs.2 cfg.height).getD sz.2)
        else sz
      let pe : Except String (Position × (ℤ × ℤ)) :=
        match cfg.bg_color with
        | none => .ok (cfg.position, sz)
        | some c =>
          match parse_hex_color (some c) with
          | .ok _ => .ok (Position.coords 0 0, vs)
          | .error e => .error e
      match pe with
      | .error e => .error e
      | .ok (posd, sz) =>
        match get_position posd vs sz with
        | .error e => .error e
        | .ok pos =>
          .ok [{ start := cfg.start_time, duration := cfg.duration, pos := pos, size := sz }]

/-- The text branch (lines 763-848): resolve `text_position` (falling back
to `position`), resolve `max_width` (ratio when `<= 1.0`), rasterize the
text (colors can raise), then either take the animated path — whose
`get_position` call uses the pre-rotation base-image size — or the static
path, where rotation expands the canvas before positioning. -/
def textBranch (env : Env) (vs : ℤ × ℤ) (cfg : OverlayCfg) :
    Except String (List Layer) :=
  match cfg.text with
  | none => .ok []
  | some t =>
    let tpos := cfg.text_position.getD cfg.position
    let st := cfg.style
    let maxWpx : Option ℤ :=
      match st.max_width with
      | none => none
      | some mw => some (if mw ≤ 1 then intTrunc ((vs.1 : ℚ) * mw) else intTrunc mw)
    match make_text_rgba_sz env.wrapM env.lineM t.toList maxWpx st with
    | .error e => .error e
    | .ok ti =>
      if st.char_animation then
        match get_position tpos vs (ti.w, ti.h) with
        | .error e => .error e
        | .ok pos =>
          .ok [{ start := cfg.start_time, duration := cfg.duration, pos := pos,
                 size := (ti.w, ti.h) }]
      else
        let sz := if cfg.rotation ≠ 0 then env.rotSize (ti.w, ti.h) cfg.rotation
          else (ti.w, ti.h)
        match get_position tpos vs sz with
        | .error e => .error e
        | .ok pos =>
          .ok [{ start := cfg.start_time, duration := cfg.duration, pos := pos, size := sz }]

/-- One iteration of the overlay loop of `overlay_images_on_video`
(lines 535-848): skip on non-positive duration, skip when the overlay
starts at or after the end of the video, expand an `image_stack` (empty
`image_paths` is skipped), and otherwise contribute the image layer and
the text layer of the descriptor — one descriptor may produce both. -/
def processOverlay (env : Env) (vs : ℤ × ℤ) (vd : ℚ) (cfg : OverlayCfg) :
    Except String (List Layer) :=
  if cfg.duration ≤ 0 then .ok []
  else if vd ≤ cfg.start_time then .ok []
  else if cfg.type = "image_stack" then
    match cfg.image_paths with
    | [] => .ok []
    | paths =>
      stackLayers env vs cfg cfg.start_time (cfg.duration / (paths.length : ℚ))
        cfg.duration paths 0
  else
    match imageBranch env vs cfg with
    | .error e => .error e
    | .ok imgL =>
      match textBranch env vs cfg with
      | .error e => .error e
      | .ok txtL => .ok (imgL ++ txtL)

/-- The whole overlay loop: layers are collected in list order; an uncaught
exception from any overlay aborts the render (there is no `try`/`except`
around the loop body in the source). -/
def processOverlays (env : Env) (vs : ℤ × ℤ) (vd : ℚ) :
    List OverlayCfg → Except String (List Layer)
  | [] => .ok []
  | c :: rest =>
    match processOverlay env vs vd c with
    | .error e => .error e
    | .ok ls =>
      match processOverlays env vs vd rest with
      | .error e => .error e
      | .ok rs => .ok (ls ++ rs)

/-- The opening brace character, written by code point to keep it out of
string literals. -/
def chL : Char := Char.ofNat 123

/-- The closing brace character. -/
def chR : Char := Char.ofNat 125

/-- A word character of the regex `\w` (ASCII range, as used by the
template variable names of this repository). -/
def isWordChar (c : Char) : Bool := c.isAlphanum || c = '_'

/-- `re.findall(r"\$\x7b(\w+)\x7d", line)` from `evaluate_template_text`
(`handler.py` lines 33-34): scan left to right; at a `$` followed by an
opening brace, a non-empty maximal word-character run, and a closing brace,
capture the name and resume after the brace; otherwise advance one
character.  Matches are non-overlapping, in order, duplicates kept. -/
def findVarsAux : List Char → ℕ → List (List Char)
  | [], _ => []
  | _ :: rest, Nat.succ k => findVarsAux rest k
  | c :: rest, 0 =>
    if c = '$' then
      match rest with
      | [] => []
      | b :: rest2 =>
        if b = chL then
          let name := rest2.takeWhile isWordChar
          match rest2.dropWhile isWordChar with
          | [] => findVarsAux rest 0
          | r :: _ =>
            if name ≠ [] ∧ r = chR then
              name :: findVarsAux rest (1 + name.length + 1)
            else findVarsAux rest 0
        else findVarsAux rest 0
    else findVarsAux rest 0

/-- The scanner starting with no characters pending to skip. -/
def findVars (cs : List Char) : List (List Char) := findVarsAux cs 0

/-- The variable mapping: a name-to-value association where a value of
`none` models both an absent key and an explicit `None` (Python's
`dict.get` conflates them the same way). -/
abbrev VarMap := List (List Char × Option (List Char))

/-- `template_vars.get(var_name)` — first matching key, `none` when the
key is absent or its value is `None`. -/
def lookupVar : VarMap → List Char → Option (List Char)
  | [], _ => none
  | (k, v) :: rest, n => if k = n then v else lookupVar rest n

/-- The `for var_name in matches: ... skip_line = True; break` loop of
`evaluate_template_text` (lines 37-42). -/
def anyMissing (vars : VarMap) : List (List Char) → Bool
  | [] => false
  | n :: rest => if (lookupVar vars n).isNone then true else anyMissing vars rest

/-- Python `str.replace(pat, rep)`: leftmost, non-overlapping, all
occurrences; on a match the pattern's characters are consumed (counted down
by the second argument) and the replacement is emitted.  (Only ever called
with a non-empty pattern here; the guard makes the function total.) -/
def replaceAllAux (pat rep : List Char) : List Char → ℕ → List Char
  | [], _ => []
  | _ :: rest, Nat.succ k => replaceAllAux pat rep rest k
  | c :: rest, 0 =>
    if pat ≠ [] ∧ (c :: rest).take pat.length = pat then
      rep ++ replaceAllAux pat rep rest (pat.length - 1)
    else c :: replaceAllAux pat rep rest 0

/-- `str.replace` starting with nothing consumed. -/
def replaceAll (pat rep : List Char) (s : List Char) : List Char :=
  replaceAllAux pat rep s 0

/-- The literal text of a `$\x7bname\x7d` placeholder. -/
def placeholder (n : List Char) : List Char := '$' :: chL :: (n ++ [chR])

/-- The substitution loop of `evaluate_template_text` (lines 48-51): for
each captured name, in match order, replace every occurrence of its
placeholder by the value (`.get(var_name, '')`; on a kept line every value
is present). -/
def substLine (vars : VarMap) (line : List Char) : List Char :=
  (findVars line).foldl
    (fun acc n => replaceAll (placeholder n) ((lookupVar vars n).getD []) acc) line

/-- The per-line loop of `evaluate_template_text`: drop a line when any
referenced variable is missing, otherwise substitute. -/
def evalLines (vars : VarMap) : List (List Char) → List (List Char)
  | [] => []
  | l :: ls =>
    if anyMissing vars (findVars l) then evalLines vars ls
    else substLine vars l :: evalLines vars ls

/-- `evaluate_template_text(text, template_vars)` from `handler.py`
(lines 17-55): split on newlines, drop lines referencing missing/`None`
variables, substitute the rest, and re-join with newlines. -/
def evaluate_template_text (text : String) (vars : List (String × Option String)) :
    String :=
  let vm : VarMap := vars.map (fun kv => (kv.1.toList, kv.2.map String.toList))
  String.mk (joinChar '\n' (evalLines vm (splitOnChar '\n' text.toList)))
/-- A concrete oracle environment: every path exists, every image loads at
100×50 pixels, rotation leaves the canvas size unchanged, the random draw is
0, and the font measures every line as 0×0 (the PIL bounding box of the
empty string). -/
def envW : Env where
  pathExists := fun _ => true
  imageSize := fun _ => (100, 50)
  rotSize := fun sz _ => sz
  randRot := fun _ => 0
  wrapM := fun _ => 0
  lineM := fun _ _ => (0, 0)

/-- The spec's `image_stack` example: `start_time=10, duration=9` with three
images. -/
def cfgStackW : OverlayCfg where
  type := "image_stack"
  start_time := 10
  duration := 9
  image_paths := ["a.png", "b.png", "c.png"]

/-- An image overlay whose position keyword is not in the keyword table. -/
def cfgBadPosW : OverlayCfg where
  image_path := some "i.png"
  start_time := 0
  duration := 5
  position := .kw "middle"

/-- An image overlay whose background color string is not parseable. -/
def cfgBadColorW : OverlayCfg where
  image_path := some "i.png"
  start_time := 0
  duration := 5
  bg_color := some (.str "xyz")

/-- An image overlay starting after the end of a 30-second video. -/
def cfgSkipW : OverlayCfg where
  image_path := some "i.png"
  start_time := 50
  duration := 5

/-- Helper: `intTrunc` is the floor on non-negative rationals. -/
theorem intTrunc_of_nonneg {q : ℚ} (h : 0 ≤ q) : intTrunc q = ⌊q⌋ := by
  unfold intTrunc
  rw [if_neg (not_lt.mpr h)]

/-- C3: keyword position resolution computes each axis independently —
`left`/`top` give 0, `right`/`bottom` give container minus content, and
`center` gives `(container - content) // 2` with Python floor division —
for all container sizes `(W, H)` and content sizes `(w, h)` and all nine
keywords. -/
theorem get_position_keyword_anchors (W H w h : ℤ) :
    get_position (.kw "center") (W, H) (w, h) = .ok ((W - w).fdiv 2, (H - h).fdiv 2) ∧
    get_position (.kw "top") (W, H) (w, h) = .ok ((W - w).fdiv 2, 0) ∧
    get_position (.kw "bottom") (W, H) (w, h) = .ok ((W - w).fdiv 2, H - h) ∧
    get_position (.kw "left") (W, H) (w, h) = .ok (0, (H - h).fdiv 2) ∧
    get_position (.kw "right") (W, H) (w, h) = .ok (W - w, (H - h).fdiv 2) ∧
    get_position (.kw "top-left") (W, H) (w, h) = .ok (0, 0) ∧
    get_position (.kw "top-right") (W, H) (w, h) = .ok (W - w, 0) ∧
    get_position (.kw "bottom-left") (W, H) (w, h) = .ok (0, H - h) ∧
    get_position (.kw "bottom-right") (W, H) (w, h) = .ok (W - w, H - h) :=
  ⟨rfl, rfl, rfl, rfl, rfl, rfl, rfl, rfl, rfl⟩

/-- C4 counterexample: the claim says a ratio value `v` resolves to
`round(container_dim * v)`, but `_resolve_xy` truncates with `int(...)`:
for `v = 0.007` on a 250-pixel container the product is 1.75, the code
yields 1 while rounding yields 2. -/
theorem resolve_xy_truncates_not_rounds :
    (resolve_xy (7/1000) (7/1000) 250 100).1 = 1 ∧
    round ((250 : ℚ) * (7/1000)) = 2 ∧ (1 : ℤ) ≠ 2 := by
  refine ⟨?_, ?_, by decide⟩
  · norm_num [resolve_xy, ratAbs, intTrunc, Int.floor_eq_iff]
  · norm_num [round_eq, Int.floor_eq_iff]

/-- C4 (amended): a numeric pair or `{x, y}` dict resolves each axis
independently — a value `v` with `abs(v) ≤ 1.0` gives `int(container_dim *
v)` (truncation toward zero), any other value gives `int(v)` as an absolute
offset kept from the origin — independent of the content size, and pair and
dict inputs agree; the spec's ratio and pixel vectors hold. -/
theorem get_position_numeric (x y : ℚ) (W H w h w' h' : ℤ) :
    get_position (.dict x y) (W, H) (w, h) =
      .ok (if ratAbs x ≤ 1 then intTrunc ((W : ℚ) * x) else intTrunc x,
           if ratAbs y ≤ 1 then intTrunc ((H : ℚ) * y) else intTrunc y) ∧
    get_position (.coords x y) (W, H) (w, h) = get_position (.dict x y) (W, H) (w', h') ∧
    get_position (.dict (1/2) (1/2)) (200, 100) (20, 10) = .ok (100, 50) ∧
    get_position (.dict 30 5) (200, 100) (20, 10) = .ok (30, 5) := by
  refine ⟨rfl, rfl, ?_, ?_⟩
  · norm_num [get_position, resolve_xy, ratAbs, intTrunc]
  · norm_num [get_position, resolve_xy, ratAbs, intTrunc]

/-- C5: `transform_image` applies, in this fixed order, resize when
`scale != 1.0`, rotation by `-rotation` with expanded canvas and fully
transparent fill when `rotation != 0`, and, when `opacity < 1.0`,
multiplication of the existing alpha by the opacity (`int(p * opacity)`
per pixel), so alpha 128 under opacity 1/2 becomes 64 and alpha 0 stays 0. -/
theorem transform_image_pipeline (scale rot op : ℚ) (a : ℕ) (hop : 0 ≤ op) :
    transform_image_ops scale rot op =
      (if scale ≠ 1 then [ImgOp.resize scale] else []) ++
      (if rot ≠ 0 then [ImgOp.rotate (-rot) true (0, 0, 0, 0)] else []) ++
      (if op < 1 then [ImgOp.alphaScale op] else []) ∧
    pointAlpha op a = (⌊(a : ℚ) * op⌋).toNat ∧
    pointAlpha op 0 = 0 ∧
    pointAlpha (1/2) 128 = 64 ∧
    applyOpacityAlpha (1/2) [[128, 0]] = [[64, 0]] := by
  refine ⟨?_, ?_, ?_, ?_, ?_⟩
  · unfold transform_image_ops
    split_ifs <;> simp
  · unfold pointAlpha
    rw [intTrunc_of_nonneg (mul_nonneg (by positivity) hop)]
  · unfold pointAlpha
    rw [intTrunc_of_nonneg (by norm_num [hop])]
    norm_num
  · norm_num [pointAlpha, intTrunc]
    rfl
  · norm_num [applyOpacityAlpha, pointAlpha, intTrunc, Int.floor_eq_iff]
    rfl

/-- Witness for C5 at `scale = 2`, `rotation = 30`, `opacity = 1/2`,
`alpha = 77`. -/
theorem transform_image_pipeline_witness :
    transform_image_ops 2 30 (1/2) =
      (if (2 : ℚ) ≠ 1 then [ImgOp.resize 2] else []) ++
      (if (30 : ℚ) ≠ 0 then [ImgOp.rotate (-30) true (0, 0, 0, 0)] else []) ++
      (if (1/2 : ℚ) < 1 then [ImgOp.alphaScale (1/2)] else []) ∧
    pointAlpha (1/2) 77 = (⌊(77 : ℚ) * (1/2)⌋).toNat ∧
    pointAlpha (1/2) 0 = 0 ∧
    pointAlpha (1/2) 128 = 64 ∧
    applyOpacityAlpha (1/2) [[128, 0]] = [[64, 0]] :=
  transform_image_pipeline 2 30 (1/2) 77 (by norm_num)

/-- C6: with both target dimensions given, `contain` never exceeds the
target box (scale factor `min` of the per-axis factors), and `cover`
(scale factor `max`, then center-crop) resizes to at least the box, crops
inside the resized image, and ends exactly at the target box. -/
theorem fit_modes_respect_box (cw ch tw th : ℤ) (hcw : 0 < cw) (hch : 0 < ch)
    (htw : 0 ≤ tw) (hth : 0 ≤ th) :
    (fitContain cw ch (some tw) (some th)).1 ≤ tw ∧
    (fitContain cw ch (some tw) (some th)).2 ≤ th ∧
    tw ≤ (fitCover cw ch (some tw) (some th)).resized.1 ∧
    th ≤ (fitCover cw ch (some tw) (some th)).resized.2 ∧
    (∃ l t, (fitCover cw ch (some tw) (some th)).cropBox = some (l, t, l + tw, t + th) ∧
      0 ≤ l ∧ l + tw ≤ (fitCover cw ch (some tw) (some th)).resized.1 ∧
      0 ≤ t ∧ t + th ≤ (fitCover cw ch (some tw) (some th)).resized.2) ∧
    (fitCover cw ch (some tw) (some th)).final = (tw, th) := by
  have hcwQ : (0 : ℚ) < (cw : ℚ) := by exact_mod_cast hcw
  have hchQ : (0 : ℚ) < (ch : ℚ) := by exact_mod_cast hch
  have htwQ : (0 : ℚ) ≤ (tw : ℚ) := by exact_mod_cast htw
  have hthQ : (0 : ℚ) ≤ (th : ℚ) := by exact_mod_cast hth
  have hws : (0 : ℚ) ≤ (tw : ℚ) / (cw : ℚ) := div_nonneg htwQ hcwQ.le
  have hhs : (0 : ℚ) ≤ (th : ℚ) / (ch : ℚ) := div_nonneg hthQ hchQ.le
  have hcwtw : (cw : ℚ) * ((tw : ℚ) / (cw : ℚ)) = (tw : ℚ) := by
    rw [mul_comm, div_mul_cancel₀ _ hcwQ.ne']
  have hchth : (ch : ℚ) * ((th : ℚ) / (ch : ℚ)) = (th : ℚ) := by
    rw [mul_comm, div_mul_cancel₀ _ hchQ.ne']
  have hc1 : (fitContain cw ch (some tw) (some th)).1 ≤ tw := by
    simp only [fitContain]
    rw [intTrunc_of_nonneg (mul_nonneg hcwQ.le (le_min hws hhs))]
    have hle : (cw : ℚ) * min ((tw : ℚ) / (cw : ℚ)) ((th : ℚ) / (ch : ℚ)) ≤ (tw : ℚ) := by
      calc (cw : ℚ) * min ((tw : ℚ) / (cw : ℚ)) ((th : ℚ) / (ch : ℚ))
          ≤ (cw : ℚ) * ((tw : ℚ) / (cw : ℚ)) :=
            mul_le_mul_of_nonneg_left (min_le_left _ _) hcwQ.le
        _ = (tw : ℚ) := hcwtw
    calc ⌊(cw : ℚ) * min ((tw : ℚ) / (cw : ℚ)) ((th : ℚ) / (ch : ℚ))⌋
        ≤ ⌊(tw : ℚ)⌋ := Int.floor_le_floor hle
      _ = tw := Int.floor_intCast tw
  have hc2 : (fitContain cw ch (some tw) (some th)).2 ≤ th := by
    simp only [fitContain]
    rw [intTrunc_of_nonneg (mul_nonneg hchQ.le (le_min hws hhs))]
    have hle : (ch : ℚ) * min ((tw : ℚ) / (cw : ℚ)) ((th : ℚ) / (ch : ℚ)) ≤ (th : ℚ) := by
      calc (ch : ℚ) * min ((tw : ℚ) / (cw : ℚ)) ((th : ℚ) / (ch : ℚ))
          ≤ (ch : ℚ) * ((th : ℚ) / (ch : ℚ)) :=
            mul_le_mul_of_nonneg_left (min_le_right _ _) hchQ.le
        _ = (th : ℚ) := hchth
    calc ⌊(ch : ℚ) * min ((tw : ℚ) / (cw : ℚ)) ((th : ℚ) / (ch : ℚ))⌋
        ≤ ⌊(th : ℚ)⌋ := Int.floor_le_floor hle
      _ = th := Int.floor_intCast th
  have hmax : (0 : ℚ) ≤ max ((tw : ℚ) / (cw : ℚ)) ((th : ℚ) / (ch : ℚ)) :=
    le_trans hws (le_max_left _ _)
  have hnw : tw ≤ (fitCover cw ch (some tw) (some th)).resized.1 := by
    simp only [fitCover]
    rw [intTrunc_of_nonneg (mul_nonneg hcwQ.le hmax)]
    have hle : (tw : ℚ) ≤ (cw : ℚ) * max ((tw : ℚ) / (cw : ℚ)) ((th : ℚ) / (ch : ℚ)) := by
      calc (tw : ℚ) = (cw : ℚ) * ((tw : ℚ) / (cw : ℚ)) := hcwtw.symm
        _ ≤ (cw : ℚ) * max ((tw : ℚ) / (cw : ℚ)) ((th : ℚ) / (ch : ℚ)) :=
            mul_le_mul_of_nonneg_left (le_max_left _ _) hcwQ.le
    calc tw = ⌊(tw : ℚ)⌋ := (Int.floor_intCast tw).symm
      _ ≤ ⌊(cw : ℚ) * max ((tw : ℚ) / (cw : ℚ)) ((th : ℚ) / (ch : ℚ))⌋ :=
          Int.floor_le_floor hle
  have hnh : th ≤ (fitCover cw ch (some tw) (some th)).resized.2 := by
    simp only [fitCover]
    rw [intTrunc_of_nonneg (mul_nonneg hchQ.le hmax)]
    have hle : (th : ℚ) ≤ (ch : ℚ) * max ((tw : ℚ) / (cw : ℚ)) ((th : ℚ) / (ch : ℚ)) := by
      calc (th : ℚ) = (ch : ℚ) * ((th : ℚ) / (ch : ℚ)) := hchth.symm
        _ ≤ (ch : ℚ) * max ((tw : ℚ) / (cw : ℚ)) ((th : ℚ) / (ch : ℚ)) :=
            mul_le_mul_of_nonneg_left (le_max_right _ _) hchQ.le
    calc th = ⌊(th : ℚ)⌋ := (Int.floor_intCast th).symm
      _ ≤ ⌊(ch : ℚ) * max ((tw : ℚ) / (cw : ℚ)) ((th : ℚ) / (ch : ℚ))⌋ :=
          Int.floor_le_floor hle
  have crop_bounds : ∀ a b : ℤ, a ≤ b →
      0 ≤ (b - a).fdiv 2 ∧ (b - a).fdiv 2 + a ≤ b := by
    intro a b hab
    rw [Int.fdiv_eq_ediv _ (by norm_num)]
    omega
  obtain ⟨hl0, hlw⟩ := crop_bounds tw _ hnw
  obtain ⟨ht0, hth2⟩ := crop_bounds th _ hnh
  refine ⟨hc1, hc2, hnw, hnh, ⟨_, _, rfl, hl0, ?_, ht0, ?_⟩, ?_⟩
  · simpa [add_comm] using hlw
  · simpa [add_comm] using hth2
  · simp only [fitCover, Prod.mk.injEq]
    exact ⟨by ring, by ring⟩

/-- Witness for C6 on a 640×480 image fitted to a 100×50 box. -/
theorem fit_modes_respect_box_witness :
    (fitContain 640 480 (some 100) (some 50)).1 ≤ 100 ∧
    (fitContain 640 480 (some 100) (some 50)).2 ≤ 50 ∧
    100 ≤ (fitCover 640 480 (some 100) (some 50)).resized.1 ∧
    50 ≤ (fitCover 640 480 (some 100) (some 50)).resized.2 ∧
    (∃ l t, (fitCover 640 480 (some 100) (some 50)).cropBox = some (l, t, l + 100, t + 50) ∧
      0 ≤ l ∧ l + 100 ≤ (fitCover 640 480 (some 100) (some 50)).resized.1 ∧
      0 ≤ t ∧ t + 50 ≤ (fitCover 640 480 (some 100) (some 50)).resized.2) ∧
    (fitCover 640 480 (some 100) (some 50)).final = (100, 50) :=
  fit_modes_respect_box 640 480 100 50 (by norm_num) (by norm_num) (by norm_num)
    (by norm_num)

/-- Helper: the two guard clauses of the overlay loop produce no layers. -/
theorem processOverlay_skip (env : Env) (vs : ℤ × ℤ) (vd : ℚ) (cfg : OverlayCfg)
    (h : cfg.duration ≤ 0 ∨ vd ≤ cfg.start_time) :
    processOverlay env vs vd cfg = .ok [] := by
  unfold processOverlay
  by_cases hd : cfg.duration ≤ 0
  · rw [if_pos hd]
  · rcases h with h | h
    · exact absurd h hd
    · rw [if_neg hd, if_pos h]

/-- Helper: an overlay that contributes no layers drops out of the loop. -/
theorem processOverlays_cons_nil (env : Env) (vs : ℤ × ℤ) (vd : ℚ)
    (c : OverlayCfg) (l : List OverlayCfg)
    (h : processOverlay env vs vd c = .ok []) :
    processOverlays env vs vd (c :: l) = processOverlays env vs vd l := by
  simp only [processOverlays, h]
  cases hp : processOverlays env vs vd l <;> simp

/-- C7: an overlay with non-positive duration or starting at or after the
video's end contributes no layer (and no error), and the remaining overlays
of the list are processed as if it were absent. -/
theorem out_of_range_overlay_skipped (env : Env) (vs : ℤ × ℤ) (vd : ℚ)
    (cfg : OverlayCfg) (xs ys : List OverlayCfg)
    (h : cfg.duration ≤ 0 ∨ vd ≤ cfg.start_time) :
    processOverlay env vs vd cfg = .ok [] ∧
    processOverlays env vs vd (xs ++ cfg :: ys) = processOverlays env vs vd (xs ++ ys) := by
  have hskip := processOverlay_skip env vs vd cfg h
  refine ⟨hskip, ?_⟩
  induction xs with
  | nil => simpa using processOverlays_cons_nil env vs vd cfg ys hskip
  | cons a as ih =>
    simp only [List.cons_append, processOverlays, List.append_eq, ih]

/-- Witness for C7: a 30-second video, an overlay starting at 50 seconds,
preceded by nothing and followed by an `image_stack` overlay that is still
processed. -/
theorem out_of_range_overlay_skipped_witness :
    processOverlay envW (1080, 1920) 30 cfgSkipW = .ok [] ∧
    processOverlays envW (1080, 1920) 30 ([] ++ cfgSkipW :: [cfgStackW]) =
      processOverlays envW (1080, 1920) 30 ([] ++ [cfgStackW]) :=
  out_of_range_overlay_skipped envW (1080, 1920) 30 cfgSkipW [] [cfgStackW]
    (Or.inr (by norm_num [cfgSkipW]))

/-- C2: contrary to the claim (and to the spec's stated policy), a bad
position keyword or a bad color string in a single overlay is NOT caught:
`overlay_images_on_video` has no `try`/`except` around the loop body, so the
`ValueError` raised by `get_position`/`_parse_hex_color` propagates out of
the render and no output is produced. -/
theorem style_error_aborts_render :
    processOverlays envW (1080, 1920) 30 [cfgBadPosW] =
      .error "Invalid position middle" ∧
    processOverlays envW (1080, 1920) 30 [cfgBadColorW] =
      .error "Unsupported color format xyz" :=
  ⟨rfl, rfl⟩

/-- Helper: an `Except` with `isOk` holds a value. -/
theorem except_isOk_exists {ε α : Type} {e : Except ε α} (h : e.isOk = true) :
    ∃ a, e = .ok a := by
  cases e with
  | ok a => exact ⟨a, rfl⟩
  | error e => simp [Except.isOk, Except.toBool] at h

/-- Helper: when the mat color parses, the per-image size computation of the
stack branch succeeds. -/
theorem stackImageSize_ok (env : Env) (vs : ℤ × ℤ) (cfg : OverlayCfg)
    (p : String) (idx : ℕ)
    (hbg : (parse_hex_color cfg.bg_color).isOk = true) :
    ∃ sz, stackImageSize env vs cfg p idx = .ok sz := by
  unfold stackImageSize
  cases cbg : cfg.bg_color with
  | none => exact ⟨_, rfl⟩
  | some c =>
    rw [cbg] at hbg
    obtain ⟨v, hv⟩ := except_isOk_exists hbg
    simp only [hv]
    exact ⟨_, rfl⟩

/-- Helper: with all images present, a parseable mat color and a resolvable
position, the stack loop returns one layer per image, the `i`-th (counting
from loop counter `idx`) starting at `s + (idx+i)*ti` with duration
`d - (idx+i)*ti`. -/
theorem stackLayers_spec (env : Env) (vs : ℤ × ℤ) (cfg : OverlayCfg) (s ti d : ℚ)
    (hbg : (parse_hex_color cfg.bg_color).isOk = true)
    (hpos : ∀ sz, (get_position cfg.position vs sz).isOk = true) :
    ∀ (paths : List String) (idx : ℕ),
      (∀ p ∈ paths, env.pathExists p = true) →
      ∃ ls, stackLayers env vs cfg s ti d paths idx = .ok ls ∧
        ls.length = paths.length ∧
        ∀ i (hi : i < ls.length),
          (ls.get ⟨i, hi⟩).start = s + ((idx : ℚ) + (i : ℚ)) * ti ∧
          (ls.get ⟨i, hi⟩).duration = d - ((idx : ℚ) + (i : ℚ)) * ti := by
  intro paths
  induction paths with
  | nil =>
    intro idx _
    exact ⟨[], rfl, rfl, fun i hi => absurd hi (by simp)⟩
  | cons p rest ih =>
    intro idx hex
    have hp : env.pathExists p = true := hex p (List.mem_cons_self p rest)
    obtain ⟨ls, hls, hlen, hspec⟩ :=
      ih (idx + 1) (fun q hq => hex q (List.mem_cons_of_mem p hq))
    obtain ⟨sz, hsz⟩ := stackImageSize_ok env vs cfg p idx hbg
    obtain ⟨pos, hgp⟩ := except_isOk_exists (hpos sz)
    refine ⟨{ start := s + (idx : ℚ) * ti, duration := d - (idx : ℚ) * ti,
              pos := pos, size := sz } :: ls, ?_, ?_, ?_⟩
    · simp only [stackLayers, hp, Bool.true_eq_false, if_false, hsz, hgp, hls]
    · simpa using hlen
    · intro i hi
      cases i with
      | zero => constructor <;> simp
      | succ n =>
        have hn : n < ls.length := by simpa using hi
        obtain ⟨h1, h2⟩ := hspec n hn
        constructor
        · show (ls.get ⟨n, hn⟩).start = _
          rw [h1]
          push_cast
          ring
        · show (ls.get ⟨n, hn⟩).duration = _
          rw [h2]
          push_cast
          ring

/-- C1 counterexample: an `image_stack` with positive duration and three
existing images, placed on a 5-second video with `start_time = 10`,
contributes zero layers — the claim's "one layer per image" fails without
the precondition `start_time < video duration`. -/
theorem image_stack_late_start_no_layers :
    0 < cfgStackW.duration ∧ cfgStackW.image_paths.length = 3 ∧
    (∀ p ∈ cfgStackW.image_paths, envW.pathExists p = true) ∧
    processOverlay envW (1080, 1920) 5 cfgStackW = .ok [] :=
  ⟨by norm_num [cfgStackW], rfl, fun p _ => rfl, rfl⟩

/-- C1 (amended): for an `image_stack` overlay with duration `d > 0` and `N`
existing image paths — provided additionally that `start_time < video
duration`, the mat color (if any) parses, and the position resolves — the
compositor creates one layer per image, layer `i` starting at
`start_time + i*(d/N)` with duration `d - i*(d/N)`. -/
theorem image_stack_timing (env : Env) (vs : ℤ × ℤ) (vd : ℚ) (cfg : OverlayCfg)
    (htype : cfg.type = "image_stack")
    (hd : 0 < cfg.duration) (hs : cfg.start_time < vd)
    (hne : cfg.image_paths ≠ [])
    (hex : ∀ p ∈ cfg.image_paths, env.pathExists p = true)
    (hbg : (parse_hex_color cfg.bg_color).isOk = true)
    (hpos : ∀ sz, (get_position cfg.position vs sz).isOk = true) :
    ∃ ls, processOverlay env vs vd cfg = .ok ls ∧
      ls.length = cfg.image_paths.length ∧
      ∀ i (hi : i < ls.length),
        (ls.get ⟨i, hi⟩).start =
          cfg.start_time + (i : ℚ) * (cfg.duration / (cfg.image_paths.length : ℚ)) ∧
        (ls.get ⟨i, hi⟩).duration =
          cfg.duration - (i : ℚ) * (cfg.duration / (cfg.image_paths.length : ℚ)) := by
  obtain ⟨ls, hls, hlen, hspec⟩ := stackLayers_spec env vs cfg cfg.start_time
    (cfg.duration / (cfg.image_paths.length : ℚ)) cfg.duration hbg hpos
    cfg.image_paths 0 hex
  refine ⟨ls, ?_, hlen, ?_⟩
  · unfold processOverlay
    rw [if_neg (not_le.mpr hd), if_neg (not_le.mpr hs), if_pos htype]
    cases cp : cfg.image_paths with
    | nil => exact absurd cp hne
    | cons p rest =>
      rw [cp] at hls
      exact hls
  · intro i hi
    obtain ⟨h1, h2⟩ := hspec i hi
    constructor
    · rw [h1]
      push_cast
      ring
    · rw [h2]
      push_cast
      ring

/-- Witness for C1 (amended) on the spec's example: `start_time = 10`,
`duration = 9`, three images, on a 30-second 1080×1920 video. -/
theorem image_stack_timing_witness :
    ∃ ls, processOverlay envW (1080, 1920) 30 cfgStackW = .ok ls ∧
      ls.length = cfgStackW.image_paths.length ∧
      ∀ i (hi : i < ls.length),
        (ls.get ⟨i, hi⟩).start = cfgStackW.start_time +
          (i : ℚ) * (cfgStackW.duration / (cfgStackW.image_paths.length : ℚ)) ∧
        (ls.get ⟨i, hi⟩).duration = cfgStackW.duration -
          (i : ℚ) * (cfgStackW.duration / (cfgStackW.image_paths.length : ℚ)) :=
  image_stack_timing envW (1080, 1920) 30 cfgStackW rfl
    (by norm_num [cfgStackW]) (by norm_num [cfgStackW]) (by simp [cfgStackW])
    (fun p _ => rfl) rfl (fun sz => rfl)

/-- Helper: the per-line loop keeps exactly the lines with no missing
variable and substitutes them. -/
theorem evalLines_eq_filter_map (vars : VarMap) (ls : List (List Char)) :
    evalLines vars ls =
      (ls.filter (fun l => !anyMissing vars (findVars l))).map (substLine vars) := by
  induction ls with
  | nil => rfl
  | cons l ls ih =>
    by_cases hm : anyMissing vars (findVars l)
    · simp [evalLines, hm, List.filter_cons, ih]
    · simp [evalLines, hm, List.filter_cons, ih]

/-- C8: template substitution is line-oriented — a line referencing a
variable that is absent or maps to null is dropped whole, every other line
has each captured placeholder occurrence replaced — and on the spec's
vectors `"Category: $\x7bcategory\x7d"` gives `""` under a null category,
`"Category: 5K"` under category `"5K"`, and a line with one present and one
missing variable is dropped whole (never partially substituted). -/
theorem evaluate_template_per_line (text : String)
    (vars : List (String × Option String)) :
    evaluate_template_text text vars =
      String.mk (joinChar '\n'
        (((splitOnChar '\n' text.toList).filter
            (fun l => !anyMissing
              (vars.map (fun kv => (kv.1.toList, kv.2.map String.toList)))
              (findVars l))).map
          (substLine (vars.map (fun kv => (kv.1.toList, kv.2.map String.toList)))))) ∧
    evaluate_template_text "Category: $\x7bcategory\x7d" [("category", none)] = "" ∧
    evaluate_template_text "Category: $\x7bcategory\x7d" [("category", some "5K")] =
      "Category: 5K" ∧
    evaluate_template_text "Time $\x7ba\x7d of $\x7bb\x7d" [("a", some "1")] = "" := by
  refine ⟨?_, rfl, rfl, rfl⟩
  simp only [evaluate_template_text]
  rw [evalLines_eq_filter_map]

/-- Helper: `split` never returns an empty list of pieces. -/
theorem splitOnChar_ne_nil (sep : Char) (cs : List Char) :
    splitOnChar sep cs ≠ [] := by
  induction cs with
  | nil => simp [splitOnChar]
  | cons c rest ih =>
    simp only [splitOnChar]
    by_cases h : c = sep
    · simp [h]
    · rw [if_neg h]
      cases hsp : splitOnChar sep rest with
      | nil => exact absurd hsp ih
      | cons l ls => simp

/-- Helper: joining the pieces of a split restores the original text
(Python: `sep.join(s.split(sep)) == s`). -/
theorem joinChar_splitOnChar (sep : Char) (cs : List Char) :
    joinChar sep (splitOnChar sep cs) = cs := by
  induction cs with
  | nil => rfl
  | cons c rest ih =>
    simp only [splitOnChar]
    by_cases h : c = sep
    · rw [if_pos h]
      cases hsp : splitOnChar sep rest with
      | nil => exact absurd hsp (splitOnChar_ne_nil sep rest)
      | cons l ls =>
        rw [hsp] at ih
        simp [joinChar, h, ih]
    · rw [if_neg h]
      cases hsp : splitOnChar sep rest with
      | nil => exact absurd hsp (splitOnChar_ne_nil sep rest)
      | cons l ls =>
        rw [hsp] at ih
        cases ls with
        | nil =>
          simp only [joinChar] at ih ⊢
          rw [ih]
        | cons l2 ls2 =>
          simp only [joinChar, List.cons_append] at ih ⊢
          rw [ih]

/-- Helper: lines without any captured placeholder pass through the
per-line loop unchanged. -/
theorem evalLines_id (vars : VarMap) (ls : List (List Char))
    (h : ∀ l ∈ ls, findVars l = []) :
    evalLines vars ls = ls := by
  induction ls with
  | nil => rfl
  | cons l rest ih =>
    have hl : findVars l = [] := h l (List.mem_cons_self l rest)
    have hrest := ih (fun q hq => h q (List.mem_cons_of_mem l hq))
    simp only [evalLines, hl, anyMissing, if_neg, Bool.false_eq_true, substLine,
      List.foldl_nil, hrest]
    simp

/-- C9: applied to text in which no line contains a `$\x7b...\x7d` capture,
template substitution returns the text unchanged, whatever the variable
mapping. -/
theorem no_placeholder_idempotent (text : String)
    (vars : List (String × Option String))
    (h : ∀ l ∈ splitOnChar '\n' text.toList, findVars l = []) :
    evaluate_template_text text vars = text := by
  simp only [evaluate_template_text]
  rw [evalLines_id _ _ h, joinChar_splitOnChar]
  rfl

/-- Witness for C9 on `"hello\nworld"` with a non-empty mapping. -/
theorem no_placeholder_idempotent_witness :
    evaluate_template_text "hello\nworld" [("x", some "1")] = "hello\nworld" :=
  no_placeholder_idempotent "hello\nworld" [("x", some "1")] (by
    intro l hl
    have hs : splitOnChar '\n' ("hello\nworld".toList) =
        ["hello".toList, "world".toList] := rfl
    rw [hs] at hl
    simp only [List.mem_cons, List.not_mem_nil, or_false] at hl
    rcases hl with rfl | rfl <;> rfl)

/-- C10 counterexample: with the default style (`padding = 10`) the static
rasterizer maps empty text to a 20×20 transparent canvas, not the claimed
1×1 image. -/
theorem empty_text_default_padding_not_1x1 :
    make_text_rgba_sz envW.wrapM envW.lineM [] none {} =
      .ok { w := 20, h := 20, bg := .solid [0, 0, 0, 0], drawn := [[]] } ∧
    ((20 : ℤ), (20 : ℤ)) ≠ ((1 : ℤ), (1 : ℤ)) :=
  ⟨rfl, by decide⟩

/-- C10 (amended): zero-length text never raises: with no background
requested the rasterizer returns a fully transparent canvas of size
`max(1, 2*padding)` square with nothing drawn on it — a 1×1 image exactly
when the style's padding is 0 (the measurement oracle returns the empty
string's bounding box `(0, 0)`, as PIL does). -/
theorem empty_text_rasterizer (wrapM : List Char → ℤ) (lineM : ℤ → List Char → ℤ × ℤ)
    (st : TextStyle) (maxW : Option ℤ)
    (hline : lineM st.stroke_width [] = (0, 0))
    (hbg : st.bg_color = none) (hgr : st.bg_gradient = none)
    (hcol : (parse_hex_color st.color).isOk = true)
    (hsc : (parse_hex_color st.stroke_color).isOk = true) :
    make_text_rgba_sz wrapM lineM [] maxW st =
      .ok { w := max 1 (2 * st.padding), h := max 1 (2 * st.padding),
            bg := .solid [0, 0, 0, 0], drawn := [[]] } := by
  obtain ⟨cv, hcv⟩ := except_isOk_exists hcol
  obtain ⟨sv, hsv⟩ := except_isOk_exists hsc
  have hl : wrap_text wrapM [] maxW = [[]] := rfl
  simp only [make_text_rgba_sz, hl, List.map_cons, List.map_nil, hline, hgr, hbg,
    hcv, hsv, List.sum_cons, List.sum_nil, List.length_cons, List.length_nil,
    List.foldl_nil]
  norm_num

/-- Witness for C10 (amended): padding 0 gives the 1×1 transparent image. -/
theorem empty_text_rasterizer_witness :
    make_text_rgba_sz envW.wrapM envW.lineM [] none { padding := 0 } =
      .ok { w := 1, h := 1, bg := .solid [0, 0, 0, 0], drawn := [[]] } := by
  have h := empty_text_rasterizer envW.wrapM envW.lineM { padding := 0 } none
    rfl rfl rfl rfl rfl
  simpa using h
